import Mathlib

/-!
Shallow embedding of the quilt control-plane core: the datastore row types,
the cloud reconciler's transaction (stale-boot GC, phase 1 and phase 2 of
the join), the foreman's run loop and update coalescer, the worker
scheduler's `syncJoinScore`, the ACL derivation, and the blueprint
front-end's deterministic ID assignment.  Each definition is translated
from the corresponding source function; theorems settle the spec claims.
-/

namespace Quilt

/-- `db.Role`; the source's role strings are `""`, `"Master"`, `"Worker"`
(`db.None`, `db.Master`, `db.Worker`). -/
inductive Role where
  | None
  | Master
  | Worker
deriving DecidableEq, Repr

/-- Alias for `Role`, needed because the `Machine` structure has a field of
the same name. -/
abbrev RoleT := Role

/-- Machine status constants from `api/client/client.go` (the `const` block:
Booting, Connecting, Connected, Stopping). -/
def Booting : String := "booting"

/-- `Connecting` status constant. -/
def Connecting : String := "connecting"

/-- `Connected` status constant. -/
def Connected : String := "connected"

/-- `Stopping` status constant. -/
def Stopping : String := "stopping"

/-- `db.Reconnecting`, referenced by `cloud/join.go`'s `connectionStatus`;
it is not among the constants declared in `api/client/client.go`. -/
def Reconnecting : String := "reconnecting"

/-- `db.Machine` from `api/client/client.go`.  `time.Time` is modelled as an
integer timestamp (nanoseconds); `time.Time.Add` is addition and
`time.Time.After` is strict comparison. -/
structure Machine where
  ID : Nat := 0
  Role : RoleT := .None
  DesiredRole : RoleT := .None
  Provider : String := ""
  Region : String := ""
  Size : String := ""
  DiskSize : Int := 0
  SSHKeys : List String := []
  FloatingIP : String := ""
  Preemptible : Bool := false
  CloudID : String := ""
  PublicIP : String := ""
  PrivateIP : String := ""
  Status : String := ""
  StatusTime : Int := 0
deriving DecidableEq, Repr

/-- `time.Time.Add`: shift a timestamp by a duration. -/
def timeAdd (t d : Int) : Int := t + d

/-- `time.Time.After`: `t.After(u)` holds iff `t` is strictly later. -/
def timeAfter (t u : Int) : Bool := t > u

/-- `5 * time.Minute` in nanoseconds. -/
def fiveMinutes : Int := 5 * 60 * 1000000000

/-- The stale-boot GC condition from `transact`
(`(dbm.Status == db.Booting || dbm.Status == db.Stopping) &&
dbm.StatusTime.After(dbm.StatusTime.Add(5*time.Minute))`). -/
def staleBootCondition (dbm : Machine) : Bool :=
  (dbm.Status == Booting || dbm.Status == Stopping) &&
    timeAfter dbm.StatusTime (timeAdd dbm.StatusTime fiveMinutes)

/-- The GC pass over the selected rows: `view.Remove(dbm)` for each row
satisfying `staleBootCondition`. -/
def staleBootGC (rows : List Machine) : List Machine :=
  rows.filter (fun dbm => !(staleBootCondition dbm))

/-- The spec's S2 seed: `Machine{Status:Booting, StatusTime:now−6min,
CloudID:""}`, at `now = 0`. -/
def s2Machine : Machine :=
  { Status := Booting, StatusTime := (-6) * 60 * 1000000000, CloudID := "" }

/-- C1: the stale-boot GC removes no row whatsoever: its guard compares
`StatusTime` against `StatusTime + 5min` (instead of `now`), which is false
for every timestamp.  In particular the S2 seed machine (Status Booting,
StatusTime six minutes old, empty CloudID) survives the reconciliation's GC
pass, contradicting the claim that it is removed. -/
theorem staleBootGC_removes_nothing :
    (∀ dbm : Machine, staleBootCondition dbm = false) ∧
      staleBootGC [s2Machine] = [s2Machine] := by
  constructor
  · intro dbm
    simp only [staleBootCondition, timeAfter, timeAdd, fiveMinutes]
    simp only [Bool.and_eq_false_iff]
    right
    simp only [decide_eq_false_iff_not, not_lt]
    omega
  · rfl

/-- `Machine.SetStatus` from `api/client/client.go`: mutate `Status` and
stamp `StatusTime` only when the status actually changes.  `time.Now()` is
passed in as `now`. -/
def Machine.SetStatus (m : Machine) (status : String) (now : Int) : Machine :=
  if m.Status ≠ status then { m with Status := status, StatusTime := now } else m

/-- The foreman's `update` message (`cloud/foreman`): target machine `ip`,
optional `role`, optional `status`. -/
structure Update where
  ip : String := ""
  role : RoleT := .None
  status : String := ""
deriving DecidableEq, Repr

/-- `updateMap[m.ip] = m` of `updateRoutine`: set the key, replacing any
pending update for the same IP wholesale. -/
def mapSet (m : List (String × Update)) (k : String) (u : Update) :
    List (String × Update) :=
  if m.any (fun p => p.1 == k) then
    m.map (fun p => if p.1 == k then (k, u) else p)
  else m ++ [(k, u)]

/-- The map built by `updateRoutine` from one drain window's updates. -/
def windowMap (w : List Update) : List (String × Update) :=
  w.foldl (fun acc u => mapSet acc u.ip u) []

/-- Go map lookup (`update, ok := updateMap[dbm.PublicIP]`). -/
def mapGet (m : List (String × Update)) (k : String) : Option Update :=
  (m.find? (fun p => p.1 == k)).map (fun p => p.2)

/-- The body of `updateRoutine`'s commit loop: write `Status` only when the
update's status is non-empty, and `Role` only when its role is non-None.
Note the direct field assignments: `StatusTime` is never touched. -/
def applyUpdate (dbm : Machine) (u : Update) : Machine :=
  let dbm1 := if u.status ≠ "" then { dbm with Status := u.status } else dbm
  if u.role ≠ Role.None then { dbm1 with Role := u.role } else dbm1

/-- `updateRoutine`'s transaction: over the rows with a public IP that are
not `Stopping`, apply the pending update for their IP, if any. -/
def updateTxn (w : List Update) (rows : List Machine) : List Machine :=
  rows.map (fun dbm =>
    if dbm.PublicIP ≠ "" ∧ dbm.Status ≠ Stopping then
      match mapGet (windowMap w) dbm.PublicIP with
      | some u => applyUpdate dbm u
      | none => dbm
    else dbm)

/-- A machine mid-connection, used to exhibit the coalescer's bypassing of
`StatusTime`. -/
def c2Machine : Machine :=
  { PublicIP := "1.2.3.4", Status := Connecting, StatusTime := 100 }

/-- A status-only coalescer update for `c2Machine`. -/
def c2Update : Update := { ip := "1.2.3.4", status := Connected }

/-- C2 counterexample: the foreman's update coalescer (`updateRoutine`)
commits a Status change by direct assignment, leaving `StatusTime`
untouched — a commit that changes `Status` without updating `StatusTime`. -/
theorem coalescer_changes_status_but_not_statusTime :
    (applyUpdate c2Machine c2Update).Status ≠ c2Machine.Status ∧
      (applyUpdate c2Machine c2Update).StatusTime = c2Machine.StatusTime := by
  constructor
  · decide
  · rfl

/-- C2 amended: `Machine.SetStatus` stamps `StatusTime` exactly when the new
status differs (so under it StatusTime strictly advances iff Status
changes), but the foreman's update coalescer writes `Status` directly and
never advances `StatusTime`, so the iff does not hold across every
component that writes Machine rows. -/
theorem setStatus_advances_statusTime_iff_but_coalescer_never :
    ∀ (m : Machine) (s : String) (now : Int), m.StatusTime < now →
      ((m.SetStatus s now).StatusTime > m.StatusTime ↔ s ≠ m.Status) ∧
        (∀ u : Update, (applyUpdate m u).StatusTime = m.StatusTime) := by
  intro m s now h
  constructor
  · unfold Machine.SetStatus
    by_cases hs : m.Status = s
    · simp [hs]
    · simp only [ne_eq, hs, not_false_iff, if_true]
      constructor
      · intro _
        exact fun hc => hs hc.symm
      · intro _
        simpa using h
  · intro u
    unfold applyUpdate
    by_cases h1 : u.status = ""
    · by_cases h2 : u.role = Role.None <;> simp [h1, h2]
    · by_cases h2 : u.role = Role.None <;> simp [h1, h2]

/-- C2 amended witness at a concrete machine, status and clock. -/
theorem setStatus_advances_statusTime_iff_witness :
    ((c2Machine.SetStatus Connected 101).StatusTime > c2Machine.StatusTime ↔
        Connected ≠ c2Machine.Status) ∧
      (∀ u : Update, (applyUpdate c2Machine u).StatusTime = c2Machine.StatusTime) :=
  setStatus_advances_statusTime_iff_but_coalescer_never c2Machine Connected 101
    (by decide)

/-- C10: within one drain window, a later update for the same IP replaces
the earlier one wholesale (the window map holds exactly the later update),
and the surviving update writes `Status` only when non-empty and `Role`
only when non-None; hence a status update followed by a role-only update
for the same machine commits the role but never the status change. -/
theorem coalescer_last_update_wins :
    ∀ (u1 u2 : Update) (m : Machine),
      u1.ip = u2.ip → m.PublicIP = u2.ip → m.PublicIP ≠ "" →
      m.Status ≠ Stopping → u2.status = "" → u2.role ≠ Role.None →
      mapGet (windowMap [u1, u2]) u2.ip = some u2 ∧
        updateTxn [u1, u2] [m] = [{ m with Role := u2.role }] ∧
        ({ m with Role := u2.role } : Machine).Status = m.Status := by
  intro u1 u2 m hip hpub hne hstop hstat hrole
  have hget : mapGet (windowMap [u1, u2]) u2.ip = some u2 := by
    simp [windowMap, mapSet, mapGet, hip]
  refine ⟨hget, ?_, rfl⟩
  have happ : applyUpdate m u2 = { m with Role := u2.role } := by
    unfold applyUpdate
    simp [hstat, hrole]
  have hget' : mapGet (windowMap [u1, u2]) m.PublicIP = some u2 := by
    rw [hpub]; exact hget
  simp only [updateTxn, List.map_cons, List.map_nil]
  rw [if_pos ⟨hne, hstop⟩, hget']
  simp [happ]

/-- The earlier, status-only update of the C10 scenario. -/
def c10StatusUpdate : Update := { ip := "9.9.9.9", status := Connected }

/-- The later, role-only update of the C10 scenario. -/
def c10RoleUpdate : Update := { ip := "9.9.9.9", role := .Worker }

/-- The machine row of the C10 scenario. -/
def c10Machine : Machine :=
  { PublicIP := "9.9.9.9", Status := Connecting, StatusTime := 50 }

/-- C10 witness: a status update then a role-only update for IP `9.9.9.9`
inside one window; the machine's status survives unchanged while the role
is committed. -/
theorem coalescer_last_update_wins_witness :
    mapGet (windowMap [c10StatusUpdate, c10RoleUpdate]) "9.9.9.9" =
        some c10RoleUpdate ∧
      updateTxn [c10StatusUpdate, c10RoleUpdate] [c10Machine] =
        [{ c10Machine with Role := .Worker }] ∧
      ({ c10Machine with Role := .Worker } : Machine).Status =
        c10Machine.Status :=
  coalescer_last_update_wins c10StatusUpdate c10RoleUpdate c10Machine rfl rfl
    (by decide) (by decide) rfl (by decide)

/-- `pb.MinionConfig` as consumed by the foreman (with the minion's
self-reported role). -/
structure MinionConfig where
  FloatingIP : String := ""
  PrivateIP : String := ""
  Blueprint : String := ""
  Provider : String := ""
  Size : String := ""
  Region : String := ""
  EtcdMembers : List String := []
  AuthorizedKeys : List String := []
  Role : RoleT := .None
deriving DecidableEq, Repr

/-- The foreman's per-machine state: whether a minion client is currently
held, the machine's public IP, and the cached status. -/
structure Foreman where
  hasClient : Bool := false
  ip : String := ""
  status : String := ""
deriving DecidableEq, Repr

/-- The environment one `foreman.runOnce` iteration observes: the machine
rows read in the transaction (already filtered to `Status != Stopping`),
the blueprint text, and the outcomes of the dial, `getMinion` and
`setMinion` RPCs. -/
structure ForemanEnv where
  dbms : List Machine := []
  bp : String := ""
  dialOK : Bool := true
  getMinionResult : Option MinionConfig := none
  setMinionOK : Bool := true
deriving Repr

/-- The machine-lookup loop of `runOnce`: the last row whose `PublicIP`
equals the foreman's IP wins (`missing` iff none does). -/
def findDbm (dbms : List Machine) (ip : String) : Option Machine :=
  dbms.foldl (fun acc m => if m.PublicIP == ip then some m else acc) none

/-- The etcd-member derivation of `runOnce`: private IPs of Master rows. -/
def etcdIPs (dbms : List Machine) : List String :=
  dbms.filterMap (fun m =>
    if m.Role = Role.Master ∧ m.PrivateIP ≠ "" then some m.PrivateIP else none)

/-- `foreman.setStatus`: update the cached status and emit a coalescer
update only when the status changed. -/
def foremanSetStatus (f : Foreman) (em : List Update) (status : String) :
    Foreman × List Update :=
  if f.status ≠ status then
    ({ f with status := status }, em ++ [{ ip := f.ip, status := status }])
  else (f, em)

/-- `foreman.setRole`: emit a role-only coalescer update. -/
def foremanSetRole (f : Foreman) (em : List Update) (role : RoleT) :
    Foreman × List Update :=
  (f, em ++ [{ ip := f.ip, role := role }])

/-- The tail of `runOnce` after a client is held: `getMinion`, status and
role updates, and the `setMinion` push when the desired config differs. -/
def afterDial (f : Foreman) (em : List Update) (dbm : Machine)
    (env : ForemanEnv) : Foreman × List Update × Bool :=
  match env.getMinionResult with
  | none =>
      let (f1, em1) := foremanSetStatus f em Connecting
      ({ f1 with hasClient := false }, em1, false)
  | some cfg =>
      let (f1, em1) := foremanSetStatus f em Connected
      let (f2, em2) :=
        if cfg.Role ≠ Role.None ∧ cfg.Role ≠ dbm.Role then
          foremanSetRole f1 em1 cfg.Role
        else (f1, em1)
      let newConfig : MinionConfig :=
        { FloatingIP := dbm.FloatingIP
          PrivateIP := dbm.PrivateIP
          Blueprint := env.bp
          Provider := dbm.Provider
          Size := dbm.Size
          Region := dbm.Region
          EtcdMembers := etcdIPs env.dbms
          AuthorizedKeys := dbm.SSHKeys }
      if newConfig = cfg then (f2, em2, false)
      else if env.setMinionOK then (f2, em2, false)
      else
        let (f3, em3) := foremanSetStatus f2 em2 Connecting
        ({ f3 with hasClient := false }, em3, false)

/-- `foreman.runOnce` from `cloud/foreman`: look up this foreman's machine
row (error when missing), cache its status, dial when no client is held,
then run the minion RPC exchange.  Returns the new foreman state, the
coalescer updates emitted in order, and whether the loop should exit. -/
def runOnce (f0 : Foreman) (env : ForemanEnv) : Foreman × List Update × Bool :=
  match findDbm env.dbms f0.ip with
  | none => (f0, [], true)
  | some dbm =>
      let f := { f0 with status := dbm.Status }
      if f.hasClient then afterDial f [] dbm env
      else
        let (f1, em1) := foremanSetStatus f [] Connecting
        if env.dialOK then afterDial { f1 with hasClient := true } em1 dbm env
        else (f1, em1, false)

/-- The machine row backing the C5 scenario. -/
def c5Machine : Machine :=
  { PublicIP := "1.2.3.4", PrivateIP := "10.0.0.2", Status := Connected }

/-- A connected foreman for the C5 scenario. -/
def c5Foreman : Foreman :=
  { hasClient := true, ip := "1.2.3.4", status := Connected }

/-- The C5 environment: machine present, `GetMinionConfig` fails. -/
def c5Env : ForemanEnv := { dbms := [c5Machine], getMinionResult := none }

/-- C5 counterexample: when `GetMinionConfig` fails, the foreman drops the
client but transitions the status to `Connecting`, not `Reconnecting` (no
write of `Reconnecting` occurs anywhere in the iteration). -/
theorem getMinion_failure_goes_to_connecting_not_reconnecting :
    (runOnce c5Foreman c5Env).1.status = Connecting ∧
      Connecting ≠ Reconnecting ∧
      (runOnce c5Foreman c5Env).2.1.all (fun u => u.status ≠ Reconnecting) := by
  refine ⟨rfl, by decide, ?_⟩
  decide

/-- C5 amended: in every iteration in which the machine row is found, a
client is held, and the `GetMinionConfig` RPC fails, `runOnce` drops the
client, transitions the status to `Connecting` (emitting one coalescer
update unless the row was already `Connecting`), and returns without error
and without any further action. -/
theorem getMinion_failure_drops_client_and_reconnects :
    ∀ (f : Foreman) (env : ForemanEnv) (dbm : Machine),
      f.hasClient = true → findDbm env.dbms f.ip = some dbm →
      env.getMinionResult = none →
      runOnce f env =
        ({ hasClient := false, ip := f.ip, status := Connecting },
          (if dbm.Status ≠ Connecting then
            [{ ip := f.ip, status := Connecting }]
          else []),
          false) := by
  intro f env dbm hc hfind hget
  unfold runOnce
  rw [hfind]
  simp only [hc, if_true]
  unfold afterDial
  rw [hget]
  unfold foremanSetStatus
  by_cases hs : dbm.Status = Connecting <;> simp [hs]

/-- C5 amended witness: the concrete connected foreman of the C5 scenario. -/
theorem getMinion_failure_drops_client_witness :
    runOnce c5Foreman c5Env =
      ({ hasClient := false, ip := c5Foreman.ip, status := Connecting },
        (if c5Machine.Status ≠ Connecting then
          [{ ip := c5Foreman.ip, status := Connecting }]
        else []),
        false) :=
  getMinion_failure_drops_client_and_reconnects c5Foreman c5Env c5Machine rfl
    rfl rfl

/-! ### The datastore view used by the reconciler's transaction -/

/-- A fresh row as produced by `view.InsertMachine()`: only the primary key
is set. -/
def blankMachine (id : Nat) : Machine := { ID := id }

/-- A transaction's view of the Machine table: the rows plus the next
primary key. -/
structure View where
  rows : List Machine
  nid : Nat
deriving Repr

/-- `view.Remove`: delete by primary key. -/
def removeRow (rows : List Machine) (m : Machine) : List Machine :=
  rows.filter (fun r => r.ID ≠ m.ID)

/-- `view.Commit`: update the existing row with the same primary key. -/
def commitRow (rows : List Machine) (m : Machine) : List Machine :=
  rows.map (fun r => if r.ID = m.ID then m else r)

/-- `view.InsertMachine`: allocate a fresh ID, insert the blank row, and
return it. -/
def insertMachine (v : View) : Machine × View :=
  (blankMachine v.nid, ⟨v.rows ++ [blankMachine v.nid], v.nid + 1⟩)

/-! ### Phase 1 of `transact` (actual ↔ database) -/

/-- `phase1Score` from `transact`: exact CloudID matches score 0; a DB row
with a CloudID admits only an exact match; otherwise unclaimed DB rows
match on Size, Preemptible and non-zero DiskSize. -/
def phase1Score (cm dbm : Machine) : Int :=
  if cm.CloudID = dbm.CloudID then 0
  else if dbm.CloudID ≠ "" then -1
  else if cm.Size ≠ dbm.Size ∨ cm.Preemptible ≠ dbm.Preemptible ∨
      (cm.DiskSize ≠ 0 ∧ cm.DiskSize ≠ dbm.DiskSize) then -1
  else 1

/-- The pair-commit body of phase 1: copy the cloud-observed fields into
the DB row, preserving `ID`, `Status` and `SSHKeys`. -/
def phase1Copy (cm dbm : Machine) : Machine :=
  let dbm1 := { dbm with
    CloudID := cm.CloudID, PublicIP := cm.PublicIP, PrivateIP := cm.PrivateIP,
    Provider := cm.Provider, Region := cm.Region, Size := cm.Size,
    FloatingIP := cm.FloatingIP, Preemptible := cm.Preemptible }
  if cm.DiskSize ≠ dbm1.DiskSize then { dbm1 with DiskSize := cm.DiskSize }
  else dbm1

/-- The removal loop of phase 1: unmatched DB rows are removed unless their
status is `Booting`. -/
def phase1Removals (v : View) : List Machine → View
  | [] => v
  | dbm :: rest =>
      if dbm.Status ≠ Booting then
        phase1Removals { v with rows := removeRow v.rows dbm } rest
      else phase1Removals v rest

/-- The insertion loop of phase 1: each unmatched cloud machine is paired
with a freshly inserted blank row. -/
def phase1Inserts (v : View) (pairs : List (Machine × Machine)) :
    List Machine → View × List (Machine × Machine)
  | [] => (v, pairs)
  | cmi :: rest =>
      let (m, v') := insertMachine v
      phase1Inserts v' (pairs ++ [(cmi, m)]) rest

/-- The commit loop of phase 1 over all (cloud, db) pairs. -/
def phase1Commits (v : View) : List (Machine × Machine) → View
  | [] => v
  | p :: rest =>
      phase1Commits { v with rows := commitRow v.rows (phase1Copy p.1 p.2) } rest

/-- Phase 1 of `transact`, parametrized by the decomposition `(pairs, cmis,
dbmis)` that `join.Join` returned (matched pairs, unmatched cloud machines,
unmatched DB rows). -/
def phase1 (v : View) (pairs : List (Machine × Machine))
    (cmis dbmis : List Machine) : View :=
  let v1 := phase1Removals v dbmis
  let (v2, ps) := phase1Inserts v1 pairs cmis
  phase1Commits v2 ps

/-! ### Phase 2 of `transact` (desired ↔ actual): the stop handling -/

/-- `phase2Score` from `transact`. -/
def phase2Score (dbm sm : Machine) : Int :=
  if sm.Size ≠ dbm.Size ∨ sm.Preemptible ≠ dbm.Preemptible ∨
      (dbm.DiskSize ≠ 0 ∧ sm.DiskSize ≠ dbm.DiskSize) ∨
      (dbm.Role ≠ Role.None ∧ sm.Role ≠ dbm.Role) then -1
  else
    (7 - (if dbm.Role ≠ Role.None ∧ dbm.Role = sm.Role then 4 else 0)
       - (if dbm.DesiredRole ≠ Role.None ∧ dbm.DesiredRole = sm.Role then 2 else 0)
       - (if dbm.FloatingIP = sm.FloatingIP then 1 else 0) : Int)

/-- The unmatched-DB-row loop of phase 2: rows with an empty `CloudID` are
removed outright; rows already `Stopping` are skipped; the rest get
`SetStatus(Stopping)`, are committed, and the original row is appended to
the stop batch. -/
def phase2Stops (now : Int) : View → List Machine → List Machine →
    View × List Machine
  | v, stops, [] => (v, stops)
  | v, stops, dbm :: rest =>
      if dbm.CloudID = "" then
        phase2Stops now { v with rows := removeRow v.rows dbm } stops rest
      else if dbm.Status = Stopping then
        phase2Stops now v stops rest
      else
        phase2Stops now
          { v with rows := commitRow v.rows (dbm.SetStatus Stopping now) }
          (stops ++ [dbm]) rest

/-! ### Lemmas about the view primitives -/

theorem setStatus_id (m : Machine) (s : String) (t : Int) :
    (m.SetStatus s t).ID = m.ID := by
  unfold Machine.SetStatus
  split <;> rfl

theorem commitRow_map_id (rows : List Machine) (m : Machine) :
    (commitRow rows m).map (fun r => r.ID) = rows.map (fun r => r.ID) := by
  induction rows with
  | nil => rfl
  | cons r rest ih =>
      simp only [commitRow, List.map_cons] at ih ⊢
      by_cases h : r.ID = m.ID
      · simp [h, ih]
      · simp [h, ih]

theorem mem_commitRow_self {rows : List Machine} {x : Machine} (m : Machine)
    (hx : x ∈ rows) (hne : x.ID ≠ m.ID) : x ∈ commitRow rows m := by
  unfold commitRow
  exact List.mem_map.mpr ⟨x, hx, by simp [hne]⟩

theorem mem_commitRow_target {rows : List Machine} {x : Machine} {m : Machine}
    (hx : x ∈ rows) (heq : x.ID = m.ID) : m ∈ commitRow rows m := by
  unfold commitRow
  exact List.mem_map.mpr ⟨x, hx, by simp [heq]⟩

theorem commitRow_id_surj {rows : List Machine} {m : Machine} {r' : Machine}
    (h : r' ∈ commitRow rows m) : ∃ r ∈ rows, r'.ID = r.ID := by
  rcases List.mem_map.mp h with ⟨r, hr, hmap⟩
  refine ⟨r, hr, ?_⟩
  by_cases hid : r.ID = m.ID
  · rw [← hmap]; simp [hid]
  · rw [← hmap]; simp [hid]

/-! ### Lemmas about phase 1 -/

theorem phase1Removals_nid (l : List Machine) (v : View) :
    (phase1Removals v l).nid = v.nid := by
  induction l generalizing v with
  | nil => rfl
  | cons dbm rest ih =>
      unfold phase1Removals
      split <;> exact ih _

theorem phase1Removals_subset (l : List Machine) (v : View) (r : Machine)
    (h : r ∈ (phase1Removals v l).rows) : r ∈ v.rows := by
  induction l generalizing v with
  | nil => exact h
  | cons dbm rest ih =>
      unfold phase1Removals at h
      split at h
      · exact List.mem_of_mem_filter (ih _ h)
      · exact ih _ h

theorem phase1Removals_removed (l : List Machine) (v : View) (d : Machine)
    (hd : d ∈ l) (hs : d.Status ≠ Booting) :
    ∀ r ∈ (phase1Removals v l).rows, r.ID ≠ d.ID := by
  induction l generalizing v with
  | nil => cases hd
  | cons h rest ih =>
      intro r hr
      rcases List.mem_cons.mp hd with heq | htail
      · subst heq
        unfold phase1Removals at hr
        rw [if_pos hs] at hr
        have hr' := phase1Removals_subset rest _ r hr
        have := List.of_mem_filter hr'
        simpa using this
      · unfold phase1Removals at hr
        split at hr
        · exact ih _ htail r hr
        · exact ih _ htail r hr

theorem phase1Removals_keeps (l : List Machine) (v : View) (x : Machine)
    (hx : x ∈ v.rows) (hsafe : ∀ d ∈ l, d.Status ≠ Booting → d.ID ≠ x.ID) :
    x ∈ (phase1Removals v l).rows := by
  induction l generalizing v with
  | nil => exact hx
  | cons h rest ih =>
      unfold phase1Removals
      split
      · rename_i hb
        refine ih _ ?_ (fun d hd => hsafe d (List.mem_cons_of_mem _ hd))
        refine List.mem_filter.mpr ⟨hx, ?_⟩
        have := hsafe h (List.mem_cons_self _ _) hb
        simpa using fun hcontra => this (by rw [hcontra])
      · exact ih _ hx (fun d hd => hsafe d (List.mem_cons_of_mem _ hd))

theorem phase1Inserts_keeps (l : List Machine) (v : View)
    (ps : List (Machine × Machine)) (x : Machine) (hx : x ∈ v.rows) :
    x ∈ (phase1Inserts v ps l).1.rows := by
  induction l generalizing v ps with
  | nil => exact hx
  | cons c rest ih =>
      unfold phase1Inserts insertMachine
      exact ih _ _ (List.mem_append_left _ hx)

theorem phase1Inserts_fresh (l : List Machine) (v : View)
    (ps : List (Machine × Machine)) (i : Nat) (hi : i < l.length) :
    (v.nid + i) ∈ (phase1Inserts v ps l).1.rows.map (fun r => r.ID) := by
  induction l generalizing v ps i with
  | nil => exact absurd hi (by simp)
  | cons c rest ih =>
      unfold phase1Inserts insertMachine
      cases i with
      | zero =>
          have hmem : blankMachine v.nid ∈
              (phase1Inserts ⟨v.rows ++ [blankMachine v.nid], v.nid + 1⟩
                (ps ++ [(c, blankMachine v.nid)]) rest).1.rows :=
            phase1Inserts_keeps rest _ _ _
              (List.mem_append_right _ (List.mem_singleton.mpr rfl))
          simpa using List.mem_map_of_mem (fun r => r.ID) hmem
      | succ j =>
          have hj : j < rest.length := by simpa using hi
          have := ih ⟨v.rows ++ [blankMachine v.nid], v.nid + 1⟩
            (ps ++ [(c, blankMachine v.nid)]) j hj
          simpa [Nat.add_assoc, Nat.add_comm 1 j] using this

theorem phase1Inserts_mem_inv (l : List Machine) (v : View)
    (ps : List (Machine × Machine)) (r : Machine)
    (h : r ∈ (phase1Inserts v ps l).1.rows) : r ∈ v.rows ∨ v.nid ≤ r.ID := by
  induction l generalizing v ps with
  | nil => exact Or.inl h
  | cons c rest ih =>
      unfold phase1Inserts insertMachine at h
      rcases ih _ _ h with hmem | hge
      · rcases List.mem_append.mp hmem with hv | hb
        · exact Or.inl hv
        · right
          have : r = blankMachine v.nid := List.mem_singleton.mp hb
          simp [this, blankMachine]
      · refine Or.inr ?_
        simp only [View.nid] at hge
        omega

theorem phase1Commits_map_id (ps : List (Machine × Machine)) (v : View) :
    (phase1Commits v ps).rows.map (fun r => r.ID) =
      v.rows.map (fun r => r.ID) := by
  induction ps generalizing v with
  | nil => rfl
  | cons p rest ih =>
      unfold phase1Commits
      rw [ih]
      exact commitRow_map_id _ _

/-- C3: in phase 1 of the reconciler's transaction, for any decomposition
`(pairs, cmis, dbmis)` returned by the join of the DB rows against the
provider's listed machines: every unmatched DB row whose status is not
`Booting` is removed from the datastore, every unmatched DB row with
status `Booting` is kept, and every unmatched cloud machine causes the
insertion of a new DB row (one fresh primary key per unmatched cloud
machine). -/
theorem phase1_unmatched_rows :
    ∀ (v : View) (pairs : List (Machine × Machine)) (cmis dbmis : List Machine),
      (∀ r ∈ v.rows, r.ID < v.nid) →
      (∀ d ∈ dbmis, d ∈ v.rows) →
      (∀ dbm ∈ dbmis, dbm.Status ≠ Booting →
          dbm.ID ∉ (phase1 v pairs cmis dbmis).rows.map (fun r => r.ID)) ∧
        (∀ dbm ∈ dbmis, dbm.Status = Booting →
          (∀ d ∈ dbmis, d.ID = dbm.ID → d = dbm) →
          dbm.ID ∈ (phase1 v pairs cmis dbmis).rows.map (fun r => r.ID)) ∧
        (∀ i < cmis.length,
          (v.nid + i) ∈ (phase1 v pairs cmis dbmis).rows.map (fun r => r.ID)) := by
  intro v pairs cmis dbmis hid hsub
  have hfinal : ∀ (x : View) (ps : List (Machine × Machine)),
      (phase1Commits x ps).rows.map (fun r => r.ID) =
        x.rows.map (fun r => r.ID) := fun x ps => phase1Commits_map_id ps x
  refine ⟨?_, ?_, ?_⟩
  · intro dbm hdbm hb hmem
    unfold phase1 at hmem
    rw [hfinal] at hmem
    rcases List.mem_map.mp hmem with ⟨r, hr, hmap⟩
    rcases phase1Inserts_mem_inv cmis _ _ r hr with hrem | hge
    · exact phase1Removals_removed dbmis v dbm hdbm hb r hrem hmap
    · rw [phase1Removals_nid] at hge
      have := hid dbm (hsub dbm hdbm)
      omega
  · intro dbm hdbm hb hinj
    unfold phase1
    rw [hfinal]
    refine List.mem_map.mpr ⟨dbm, ?_, rfl⟩
    refine phase1Inserts_keeps cmis _ _ _ ?_
    refine phase1Removals_keeps dbmis v dbm (hsub dbm hdbm) ?_
    intro d hd hds heq
    exact hds (by rw [hinj d hd heq, hb])
  · intro i hi
    unfold phase1
    rw [hfinal]
    have := phase1Inserts_fresh cmis (phase1Removals v dbmis) pairs i hi
    rwa [phase1Removals_nid] at this

/-- The Booting row of the phase-1 witness scenario. -/
def c3Booting : Machine := { ID := 1, Status := Booting }

/-- The stale connected row of the phase-1 witness scenario. -/
def c3Stale : Machine := { ID := 2, Status := Connected }

/-- The unmatched cloud machine of the phase-1 witness scenario. -/
def c3CloudM : Machine := { CloudID := "i-9" }

/-- C3 witness: with rows `{Booting(ID 1), Connected(ID 2)}` both unmatched
and one unmatched cloud machine, phase 1 removes row 2, keeps row 1, and
inserts a fresh row with the next primary key. -/
theorem phase1_unmatched_rows_witness :
    (2 : Nat) ∉ (phase1 ⟨[c3Booting, c3Stale], 5⟩ [] [c3CloudM]
        [c3Booting, c3Stale]).rows.map (fun r => r.ID) ∧
      (1 : Nat) ∈ (phase1 ⟨[c3Booting, c3Stale], 5⟩ [] [c3CloudM]
        [c3Booting, c3Stale]).rows.map (fun r => r.ID) ∧
      (5 + 0 : Nat) ∈ (phase1 ⟨[c3Booting, c3Stale], 5⟩ [] [c3CloudM]
        [c3Booting, c3Stale]).rows.map (fun r => r.ID) := by
  have h := phase1_unmatched_rows ⟨[c3Booting, c3Stale], 5⟩ [] [c3CloudM]
    [c3Booting, c3Stale] (by decide) (by decide)
  exact ⟨h.1 c3Stale (by decide) (by decide),
    h.2.1 c3Booting (by decide) (by decide) (by decide),
    h.2.2 0 (by decide)⟩

/-! ### Lemmas about the phase-2 stop loop -/

theorem phase2Stops_id_never_added (l : List Machine) (now : Int) (v : View)
    (stops : List Machine) (x : Nat) (hx : ∀ r ∈ v.rows, r.ID ≠ x) :
    ∀ r ∈ (phase2Stops now v stops l).1.rows, r.ID ≠ x := by
  induction l generalizing v stops with
  | nil => exact hx
  | cons dbm rest ih =>
      unfold phase2Stops
      split
      · refine ih _ _ (fun r hr => ?_)
        exact hx r (List.mem_of_mem_filter hr)
      · split
        · exact ih _ _ hx
        · refine ih _ _ (fun r hr => ?_)
          rcases commitRow_id_surj hr with ⟨r0, hr0, hid⟩
          rw [hid]
          exact hx r0 hr0

theorem phase2Stops_keeps (l : List Machine) (now : Int) (v : View)
    (stops : List Machine) (x : Machine) (hx : x ∈ v.rows)
    (hsafe : ∀ d ∈ l, d.ID ≠ x.ID) :
    x ∈ (phase2Stops now v stops l).1.rows := by
  induction l generalizing v stops with
  | nil => exact hx
  | cons dbm rest ih =>
      have hd := hsafe dbm (List.mem_cons_self _ _)
      have hrest : ∀ d ∈ rest, d.ID ≠ x.ID :=
        fun d hdm => hsafe d (List.mem_cons_of_mem _ hdm)
      unfold phase2Stops
      split
      · refine ih _ _ ?_ hrest
        refine List.mem_filter.mpr ⟨hx, ?_⟩
        simpa using fun hcontra => hd (by rw [hcontra])
      · split
        · exact ih _ _ hx hrest
        · refine ih _ _ ?_ hrest
          refine mem_commitRow_self _ hx ?_
          rw [setStatus_id]
          exact fun hcontra => hd (by rw [hcontra])

/-- The stop-batch characterization: the loop accumulates exactly the
unmatched DB rows with a non-empty CloudID that were not already
`Stopping`, in order, unchanged. -/
theorem phase2Stops_batch (l : List Machine) (now : Int) (v : View)
    (stops : List Machine) :
    (phase2Stops now v stops l).2 =
      stops ++ l.filter (fun d => decide (d.CloudID ≠ "" ∧ d.Status ≠ Stopping)) := by
  induction l generalizing v stops with
  | nil => simp [phase2Stops]
  | cons dbm rest ih =>
      unfold phase2Stops
      by_cases h1 : dbm.CloudID = ""
      · rw [if_pos h1, ih]
        simp [List.filter_cons, h1]
      · rw [if_neg h1]
        by_cases h2 : dbm.Status = Stopping
        · rw [if_pos h2, ih]
          simp [List.filter_cons, h2]
        · rw [if_neg h2, ih]
          simp [List.filter_cons, h1, h2]

/-- An unmatched DB row that is already `Stopping`. -/
def c4Machine : Machine := { ID := 1, CloudID := "i-1", Status := Stopping }

/-- C4 counterexample: an unmatched DB row with non-empty CloudID that is
already `Stopping` is neither re-committed nor added to the stop batch; the
claim requires every unmatched row with a non-empty CloudID to be added. -/
theorem already_stopping_not_in_stop_batch :
    c4Machine.CloudID ≠ "" ∧
      (phase2Stops 0 ⟨[c4Machine], 2⟩ [] [c4Machine]).2 = [] := by
  constructor
  · decide
  · rfl

/-- C4 amended: in phase 2, every unmatched DB row with an empty CloudID is
removed directly (its primary key does not survive the loop) and never
added to the stop batch; every other unmatched DB row is added to the stop
batch and committed with status `Stopping` — unless it is already
`Stopping`, in which case it is skipped entirely.  The stop batch is
exactly the unmatched rows with a non-empty CloudID not already
`Stopping`. -/
theorem phase2_stop_semantics :
    ∀ (now : Int) (v : View) (dbmis : List Machine),
      ((phase2Stops now v [] dbmis).2 =
        dbmis.filter (fun d => decide (d.CloudID ≠ "" ∧ d.Status ≠ Stopping))) ∧
      (∀ d ∈ dbmis, d.CloudID = "" →
        d.ID ∉ (phase2Stops now v [] dbmis).1.rows.map (fun r => r.ID)) ∧
      ((dbmis.map (fun d => d.ID)).Nodup →
        ∀ d ∈ dbmis, d ∈ v.rows → d.CloudID ≠ "" → d.Status ≠ Stopping →
          d.SetStatus Stopping now ∈ (phase2Stops now v [] dbmis).1.rows) := by
  intro now v dbmis
  refine ⟨by simpa using phase2Stops_batch dbmis now v [], ?_, ?_⟩
  · intro d hd hcid
    suffices h : ∀ l (v' : View) stops, d ∈ l →
        ∀ r ∈ (phase2Stops now v' stops l).1.rows, r.ID ≠ d.ID by
      intro hmem
      rcases List.mem_map.mp hmem with ⟨r, hr, hmap⟩
      exact h dbmis v [] hd r hr hmap
    intro l
    induction l with
    | nil => intro v' stops h; cases h
    | cons dbm rest ih =>
        intro v' stops hdl r hr
        rcases List.mem_cons.mp hdl with heq | htail
        · subst heq
          unfold phase2Stops at hr
          rw [if_pos hcid] at hr
          refine phase2Stops_id_never_added rest now _ stops d.ID ?_ r hr
          intro r0 hr0
          simpa using (List.of_mem_filter hr0)
        · unfold phase2Stops at hr
          split at hr
          · exact ih _ _ htail r hr
          · split at hr
            · exact ih _ _ htail r hr
            · exact ih _ _ htail r hr
  · intro hnodup d hd hmem hcid hstop
    suffices h : ∀ l (v' : View) stops, d ∈ l → d ∈ v'.rows →
        (l.map (fun d => d.ID)).Nodup →
        d.SetStatus Stopping now ∈ (phase2Stops now v' stops l).1.rows by
      exact h dbmis v [] hd hmem hnodup
    intro l
    induction l with
    | nil => intro v' stops h; cases h
    | cons dbm rest ih =>
        intro v' stops hdl hdv hnd
        rw [List.map_cons] at hnd
        have hnd' := List.nodup_cons.mp hnd
        rcases List.mem_cons.mp hdl with heq | htail
        · subst heq
          unfold phase2Stops
          rw [if_neg hcid, if_neg hstop]
          refine phase2Stops_keeps rest now _ _ _ ?_ ?_
          · exact mem_commitRow_target hdv (setStatus_id _ _ _).symm
          · intro e he
            rw [setStatus_id]
            intro hco
            exact hnd'.1 (List.mem_map.mpr ⟨e, he, hco⟩)
        · have hne : dbm.ID ≠ d.ID := by
            intro hco
            exact hnd'.1 (List.mem_map.mpr ⟨d, htail, hco.symm⟩)
          unfold phase2Stops
          split
          · refine ih _ _ htail ?_ hnd'.2
            refine List.mem_filter.mpr ⟨hdv, ?_⟩
            simpa using fun hcontra => hne (by rw [hcontra])
          · split
            · exact ih _ _ htail hdv hnd'.2
            · refine ih _ _ htail ?_ hnd'.2
              refine mem_commitRow_self _ hdv ?_
              rw [setStatus_id]
              exact fun hcontra => hne (by rw [hcontra])

/-- An unmatched DB row that was never acknowledged by the cloud. -/
def c4Empty : Machine := { ID := 3 }

/-- An unmatched DB row with a live cloud instance. -/
def c4Live : Machine := { ID := 4, CloudID := "i-2", Status := Connected }

/-- The view for the C4 witness scenario. -/
def c4View : View := ⟨[c4Empty, c4Live], 9⟩

/-- C4 amended witness: two unmatched rows — one with empty CloudID, one
live — at a concrete view; the first is removed and not stopped, the
second is committed `Stopping` and lands in the stop batch. -/
theorem phase2_stop_semantics_witness :
    ((phase2Stops 7 c4View [] [c4Empty, c4Live]).2 = [c4Live]) ∧
      ((3 : Nat) ∉
        (phase2Stops 7 c4View [] [c4Empty, c4Live]).1.rows.map
          (fun r => r.ID)) ∧
      (c4Live.SetStatus Stopping 7 ∈
        (phase2Stops 7 c4View [] [c4Empty, c4Live]).1.rows) := by
  have h := phase2_stop_semantics 7 c4View [c4Empty, c4Live]
  refine ⟨?_, h.2.1 c4Empty (by decide) (by decide), ?_⟩
  · rw [h.1]
    decide
  · exact h.2.2 (by decide) c4Live (by decide) (by decide) (by decide)
      (by decide)

/-! ### ACL derivation (`getACLs`) and the ACL push (`syncACLs`) -/

/-- `acl.ACL`: a provider ingress rule. -/
structure ACL where
  CidrIP : String := ""
  MinPort : Nat := 0
  MaxPort : Nat := 0
deriving DecidableEq, Repr

/-- A blueprint Connection row. -/
structure Connection where
  From : String := ""
  To : String := ""
  MinPort : Nat := 0
  MaxPort : Nat := 0
deriving DecidableEq, Repr

/-- The reserved public-internet hostname (`stitch.PublicInternetLabel`). -/
def PublicInternetLabel : String := "public"

/-- The Blueprint row fields the reconciler consumes. -/
structure Blueprint where
  Namespace : String := ""
  AdminACL : List String := []
  Connections : List Connection := []
deriving DecidableEq, Repr

/-- Insertion into the `map[acl.ACL]struct{}` set. -/
def aclInsert (s : List ACL) (a : ACL) : List ACL :=
  if a ∈ s then s else s ++ [a]

/-- `cloud.getACLs`: admin CIDRs plus `local`, every machine's public IP
as a /32, and one `0.0.0.0/0` rule per connection whose `From` is the
public-internet label. -/
def getACLs (bp : Blueprint) (machines : List Machine) : List ACL :=
  let s1 := (bp.AdminACL ++ ["local"]).foldl
    (fun s cidr => aclInsert s { CidrIP := cidr, MinPort := 1, MaxPort := 65535 })
    []
  let s2 := machines.foldl
    (fun s m =>
      if m.PublicIP ≠ "" then
        aclInsert s
          { CidrIP := m.PublicIP ++ "/32", MinPort := 1, MaxPort := 65535 }
      else s) s1
  bp.Connections.foldl
    (fun s conn =>
      if conn.From = PublicInternetLabel then
        aclInsert s
          { CidrIP := "0.0.0.0/0", MinPort := conn.MinPort,
            MaxPort := conn.MaxPort }
      else s) s2

theorem mem_aclInsert {s : List ACL} {a x : ACL} :
    x ∈ aclInsert s a ↔ x ∈ s ∨ x = a := by
  unfold aclInsert
  split
  · rename_i h
    constructor
    · exact Or.inl
    · rintro (hx | rfl)
      · exact hx
      · exact h
  · simp

theorem mem_foldl_aclInsert {β : Type} (f : β → ACL) (p : β → Prop)
    [DecidablePred p] (l : List β) (s : List ACL) (x : ACL) :
    (x ∈ l.foldl (fun s b => if p b then aclInsert s (f b) else s) s) ↔
      x ∈ s ∨ ∃ b ∈ l, p b ∧ x = f b := by
  induction l generalizing s with
  | nil => simp
  | cons b rest ih =>
      simp only [List.foldl_cons]
      by_cases hb : p b
      · rw [if_pos hb, ih, mem_aclInsert]
        constructor
        · rintro ((hx | rfl) | ⟨c, hc, hpc, rfl⟩)
          · exact Or.inl hx
          · exact Or.inr ⟨b, List.mem_cons_self _ _, hb, rfl⟩
          · exact Or.inr ⟨c, List.mem_cons_of_mem _ hc, hpc, rfl⟩
        · rintro (hx | ⟨c, hc, hpc, rfl⟩)
          · exact Or.inl (Or.inl hx)
          · rcases List.mem_cons.mp hc with rfl | htail
            · exact Or.inl (Or.inr rfl)
            · exact Or.inr ⟨c, htail, hpc, rfl⟩
      · rw [if_neg hb, ih]
        constructor
        · rintro (hx | ⟨c, hc, hpc, rfl⟩)
          · exact Or.inl hx
          · exact Or.inr ⟨c, List.mem_cons_of_mem _ hc, hpc, rfl⟩
        · rintro (hx | ⟨c, hc, hpc, rfl⟩)
          · exact Or.inl hx
          · rcases List.mem_cons.mp hc with rfl | htail
            · exact absurd hpc hb
            · exact Or.inr ⟨c, htail, hpc, rfl⟩

/-- The C6 scenario's connection: `public` on the `To` side only. -/
def c6Conn : Connection := { From := "svc", To := "public", MinPort := 80, MaxPort := 80 }

/-- The C6 scenario's blueprint. -/
def c6BP : Blueprint := { Connections := [c6Conn] }

/-- C6 counterexample: a connection whose `To` (but not `From`) is the
public-internet label generates no `0.0.0.0/0` ingress ACL — only
`From == public` connections are consulted by `getACLs`. -/
theorem to_public_generates_no_ingress_acl :
    c6Conn ∈ c6BP.Connections ∧ c6Conn.To = PublicInternetLabel ∧
      ({ CidrIP := "0.0.0.0/0", MinPort := 80, MaxPort := 80 } : ACL) ∉
        getACLs c6BP [] := by
  refine ⟨by decide, by decide, ?_⟩
  decide

/-- The `0.0.0.0/0` ingress ACL built from a connection's port range. -/
def publicACL (conn : Connection) : ACL :=
  { CidrIP := "0.0.0.0/0", MinPort := conn.MinPort, MaxPort := conn.MaxPort }

/-- C6 amended: every connection whose `From` equals the public-internet
label contributes an ingress ACL with CIDR `0.0.0.0/0` and the
connection's port range; connections that involve `public` only on the
`To` side contribute nothing. -/
theorem from_public_generates_ingress_acl :
    ∀ (bp : Blueprint) (machines : List Machine) (conn : Connection),
      conn ∈ bp.Connections → conn.From = PublicInternetLabel →
      publicACL conn ∈ getACLs bp machines := by
  intro bp machines conn hmem hfrom
  unfold getACLs
  rw [show (fun (s : List ACL) (conn : Connection) =>
      if conn.From = PublicInternetLabel then
        aclInsert s
          { CidrIP := "0.0.0.0/0", MinPort := conn.MinPort,
            MaxPort := conn.MaxPort }
      else s) = (fun (s : List ACL) (conn : Connection) =>
      if conn.From = PublicInternetLabel then aclInsert s (publicACL conn)
      else s) from rfl]
  rw [mem_foldl_aclInsert publicACL (fun conn => conn.From = PublicInternetLabel)]
  exact Or.inr ⟨conn, hmem, hfrom, rfl⟩

/-- The `From = public` connection of the C6 witness. -/
def c6FromConn : Connection :=
  { From := "public", To := "svc", MinPort := 8080, MaxPort := 8081 }

/-- C6 amended witness: a concrete connection with `From = public` and
ports 8080–8081 does land in the derived ACL set. -/
theorem from_public_generates_ingress_acl_witness :
    publicACL c6FromConn ∈ getACLs { Connections := [c6FromConn] } [] :=
  from_public_generates_ingress_acl { Connections := [c6FromConn] } []
    c6FromConn (by decide) (by decide)

/-! ### `cloud.runOnce`'s provider calls (C7) -/

/-- The provider capability calls an iteration can issue. -/
inductive ProviderCall where
  | boot (ms : List Machine)
  | stop (ms : List Machine)
  | updateFloatingIPs (ms : List Machine)
  | setACLs (acls : List ACL)
deriving DecidableEq, Repr

/-- `cloud.syncACLs`: resolve the `local` token to the daemon's own public
IP (aborting with no calls at all when that lookup fails), push the
resolved set, then push again — the empty set when the region has no
machines (the source's `empty` check, per its comment ``For providers with
no specified machines, we remove all ACLs``), the same set otherwise. -/
def syncACLs (unresolvedACLs : List ACL) (machines : List Machine)
    (myIPResult : Option String) : List ProviderCall :=
  if (unresolvedACLs.any (fun a => a.CidrIP == "local")) ∧ myIPResult = none then
    []
  else
    let acls := unresolvedACLs.map (fun a =>
      if a.CidrIP = "local" then
        { a with CidrIP := myIPResult.getD "" ++ "/32" }
      else a)
    [ProviderCall.setACLs acls,
      ProviderCall.setACLs (if machines.isEmpty then [] else acls)]

/-- The provider calls issued by one `cloud.runOnce` iteration after a
successful transaction: `Boot`/`Stop`/`UpdateFloatingIPs` for the
non-empty batches, and `syncACLs` exactly when all three batches are
empty. -/
def runOnceCalls (boot stop updateIPs : List Machine) (acls : List ACL)
    (machines : List Machine) (myIPResult : Option String) :
    List ProviderCall :=
  (if boot.length > 0 then [ProviderCall.boot boot] else []) ++
    (if stop.length > 0 then [ProviderCall.stop stop] else []) ++
    (if updateIPs.length > 0 then [ProviderCall.updateFloatingIPs updateIPs]
      else []) ++
    (if boot.length = 0 ∧ stop.length = 0 ∧ updateIPs.length = 0 then
      syncACLs acls machines myIPResult
    else [])

/-- Whether a provider call is a `SetACLs` invocation. -/
def isSetACLsCall : ProviderCall → Bool
  | ProviderCall.setACLs _ => true
  | _ => false

/-- How many times an iteration invoked the provider's `SetACLs`. -/
def countSetACLs (calls : List ProviderCall) : Nat :=
  calls.countP isSetACLsCall

theorem countSetACLs_append (a b : List ProviderCall) :
    countSetACLs (a ++ b) = countSetACLs a + countSetACLs b :=
  List.countP_append _ _ _

theorem countSetACLs_syncACLs (u : List ACL) (ms : List Machine)
    (ip : Option String) :
    countSetACLs (syncACLs u ms ip) =
      if (u.any (fun a => a.CidrIP == "local")) ∧ ip = none then 0 else 2 := by
  unfold syncACLs countSetACLs
  split
  · rfl
  · rfl

/-- A machine present in the region during the C7 scenario. -/
def c7Machine : Machine := { ID := 8, CloudID := "i-7", Status := Connected }

/-- C7 counterexample: a quiescent iteration (all batches empty) invokes
`SetACLs` twice, not as a single apply — `syncACLs` contains two
sequential `SetACLs` calls. -/
theorem quiescent_iteration_pushes_acls_twice :
    countSetACLs (runOnceCalls [] [] []
        [{ CidrIP := "local", MinPort := 1, MaxPort := 65535 }]
        [c7Machine] (some "5.6.7.8")) = 2 ∧ (2 : Nat) ≠ 1 := by
  constructor
  · rfl
  · decide

/-- C7 amended: an iteration that booted, stopped or updated floating IPs
never invokes `SetACLs`; a quiescent iteration invokes it twice, except
that it is not invoked at all when the ACL set mentions `local` and the
daemon's own IP cannot be resolved. -/
theorem setACLs_only_in_quiescent_iterations :
    ∀ (boot stop updateIPs : List Machine) (acls : List ACL)
      (machines : List Machine) (myIPResult : Option String),
      countSetACLs (runOnceCalls boot stop updateIPs acls machines myIPResult) =
        if boot.length = 0 ∧ stop.length = 0 ∧ updateIPs.length = 0 then
          (if (acls.any (fun a => a.CidrIP == "local")) ∧ myIPResult = none
            then 0 else 2)
        else 0 := by
  intro boot stop updateIPs acls machines myIPResult
  have cboot : countSetACLs
      (if boot.length > 0 then [ProviderCall.boot boot] else []) = 0 := by
    split <;> rfl
  have cstop : countSetACLs
      (if stop.length > 0 then [ProviderCall.stop stop] else []) = 0 := by
    split <;> rfl
  have cip : countSetACLs
      (if updateIPs.length > 0 then [ProviderCall.updateFloatingIPs updateIPs]
        else []) = 0 := by
    split <;> rfl
  unfold runOnceCalls
  rw [countSetACLs_append, countSetACLs_append, countSetACLs_append, cboot,
    cstop, cip]
  by_cases h : boot.length = 0 ∧ stop.length = 0 ∧ updateIPs.length = 0
  · rw [if_pos h, if_pos h, countSetACLs_syncACLs]
    omega
  · rw [if_neg h, if_neg h]
    rfl

/-! ### The worker scheduler's `syncJoinScore` (C8) -/

/-- The `db.Container` fields `syncJoinScore` consults. -/
structure DBContainer where
  IP : String := ""
  FilepathToContent : List (String × String) := []
  Image : String := ""
  ImageID : String := ""
  Env : List (String × String) := []
  Command : List String := []
deriving DecidableEq, Repr

/-- The `docker.Container` fields `syncJoinScore` consults. -/
structure DockerContainer where
  IP : String := ""
  Labels : List (String × String) := []
  Image : String := ""
  ImageID : String := ""
  Env : List (String × String) := []
  Path : String := ""
  Args : List String := []
deriving DecidableEq, Repr

/-- Go map indexing, which yields the zero value `""` for a missing key. -/
def goMapGet (m : List (String × String)) (k : String) : String :=
  ((m.find? (fun p => p.1 == k)).map (fun p => p.2)).getD ""

/-- The scheduler's `filesKey` label constant. -/
def filesKey : String := "files"

/-- `syncJoinScore` from `minion/scheduler/worker.go`, parametrized by
`filesHash` (the SHA-1 of `util.MapAsString` of the file map, whose
implementation lives outside this package).  Early returns become nested
conditionals; `util.StrSliceEqual` is list equality. -/
def syncJoinScore (filesHash : List (String × String) → String)
    (dbc : DBContainer) (dkc : DockerContainer) : Int :=
  if dbc.IP ≠ dkc.IP ∨
      filesHash dbc.FilepathToContent ≠ goMapGet dkc.Labels filesKey then -1
  else if (dbc.ImageID ≠ "" ∧ dkc.ImageID ≠ dbc.ImageID) ∨
      (dbc.ImageID = "" ∧ dkc.Image ≠ dbc.Image) then -1
  else if dbc.Env.any (fun p => decide (goMapGet dkc.Env p.1 ≠ p.2)) then -1
  else if dbc.Command ≠ [] ∧ dbc.Command ≠ dkc.Args ∧
      dbc.Command ≠ dkc.Path :: dkc.Args then -1
  else 0

/-- The DB container of the C8 counterexample: no command, no env. -/
def c8DB : DBContainer := {}

/-- The Docker container of the C8 counterexample: a real command and one
env entry. -/
def c8DK : DockerContainer :=
  { Path := "/bin/sh", Args := ["x"], Env := [("A", "1")] }

/-- C8 counterexample: the DB row's command (empty) matches neither
`dkc.Args` nor `[dkc.Path] ++ dkc.Args`, and the environments differ, yet
`syncJoinScore` returns 0 — an empty DB command skips the command check and
only the DB row's env keys are compared. -/
theorem sync_score_zero_despite_claimed_mismatches :
    syncJoinScore (fun _ => "") c8DB c8DK = 0 ∧
      c8DB.Command ≠ c8DK.Args ∧ c8DB.Command ≠ c8DK.Path :: c8DK.Args ∧
      c8DB.Env ≠ c8DK.Env := by
  refine ⟨rfl, by decide, by decide, by decide⟩

/-- C8 amended: `syncJoinScore` returns −1 exactly when the IPs differ, the
files hash differs from the Docker `files` label, the image identity
differs (by digest when the DB row has an ImageID, else by name), some key
of the DB row's Env maps to a different value in the Docker env (a missing
key reading as `""`), or the DB command is non-empty and matches neither
`dkc.Args` nor `[dkc.Path] ++ dkc.Args`; in every other case it returns
0. -/
theorem sync_score_characterization :
    ∀ (filesHash : List (String × String) → String) (dbc : DBContainer)
      (dkc : DockerContainer),
      syncJoinScore filesHash dbc dkc =
        if dbc.IP ≠ dkc.IP ∨
            filesHash dbc.FilepathToContent ≠ goMapGet dkc.Labels filesKey ∨
            (dbc.ImageID ≠ "" ∧ dkc.ImageID ≠ dbc.ImageID) ∨
            (dbc.ImageID = "" ∧ dkc.Image ≠ dbc.Image) ∨
            (∃ p ∈ dbc.Env, goMapGet dkc.Env p.1 ≠ p.2) ∨
            (dbc.Command ≠ [] ∧ dbc.Command ≠ dkc.Args ∧
              dbc.Command ≠ dkc.Path :: dkc.Args)
        then -1 else 0 := by
  intro filesHash dbc dkc
  have hany : (dbc.Env.any (fun p => decide (goMapGet dkc.Env p.1 ≠ p.2)) = true) ↔
      ∃ p ∈ dbc.Env, goMapGet dkc.Env p.1 ≠ p.2 := by
    rw [List.any_eq_true]
    constructor
    · rintro ⟨p, hp, hd⟩
      exact ⟨p, hp, of_decide_eq_true hd⟩
    · rintro ⟨p, hp, hd⟩
      exact ⟨p, hp, decide_eq_true hd⟩
  have hgroup : (dbc.IP ≠ dkc.IP ∨
      filesHash dbc.FilepathToContent ≠ goMapGet dkc.Labels filesKey ∨
      (dbc.ImageID ≠ "" ∧ dkc.ImageID ≠ dbc.ImageID) ∨
      (dbc.ImageID = "" ∧ dkc.Image ≠ dbc.Image) ∨
      (∃ p ∈ dbc.Env, goMapGet dkc.Env p.1 ≠ p.2) ∨
      (dbc.Command ≠ [] ∧ dbc.Command ≠ dkc.Args ∧
        dbc.Command ≠ dkc.Path :: dkc.Args)) ↔
      ((dbc.IP ≠ dkc.IP ∨
        filesHash dbc.FilepathToContent ≠ goMapGet dkc.Labels filesKey) ∨
        ((dbc.ImageID ≠ "" ∧ dkc.ImageID ≠ dbc.ImageID) ∨
          (dbc.ImageID = "" ∧ dkc.Image ≠ dbc.Image)) ∨
        (∃ p ∈ dbc.Env, goMapGet dkc.Env p.1 ≠ p.2) ∨
        (dbc.Command ≠ [] ∧ dbc.Command ≠ dkc.Args ∧
          dbc.Command ≠ dkc.Path :: dkc.Args)) := by
    simp only [or_assoc]
  rw [if_congr hgroup rfl rfl]
  unfold syncJoinScore
  by_cases hA : dbc.IP ≠ dkc.IP ∨
      filesHash dbc.FilepathToContent ≠ goMapGet dkc.Labels filesKey
  · rw [if_pos hA, if_pos (Or.inl hA)]
  · rw [if_neg hA]
    by_cases hB : (dbc.ImageID ≠ "" ∧ dkc.ImageID ≠ dbc.ImageID) ∨
        (dbc.ImageID = "" ∧ dkc.Image ≠ dbc.Image)
    · rw [if_pos hB, if_pos (Or.inr (Or.inl hB))]
    · rw [if_neg hB]
      by_cases hC : dbc.Env.any (fun p => decide (goMapGet dkc.Env p.1 ≠ p.2)) = true
      · rw [if_pos hC, if_pos (Or.inr (Or.inr (Or.inl (hany.mp hC))))]
      · rw [if_neg hC]
        by_cases hD : dbc.Command ≠ [] ∧ dbc.Command ≠ dkc.Args ∧
            dbc.Command ≠ dkc.Path :: dkc.Args
        · rw [if_pos hD, if_pos (Or.inr (Or.inr (Or.inr hD)))]
        · rw [if_neg hD, if_neg ?_]
          rintro (h | h | h | h)
          · exact hA h
          · exact hB h
          · exact hC (hany.mpr h)
          · exact hD h

/-! ### Deterministic blueprint IDs (`setQuiltIDs`, C9) -/

/-- A blueprint object (Container or Machine) as `setQuiltIDs` sees it: its
stringifiable attribute content, its SSH keys, and its `_refID`. -/
structure BPObject where
  attrs : List (String × String) := []
  sshKeys : List String := []
  refID : Nat := 0
deriving DecidableEq, Repr

/-- `key(obj)`: `stringify` of the clone with `_refID` cleared and the
`sshKeys` field dropped by the `omitSSHKey` replacer — a canonical
stringification of the attribute content only. -/
def key (obj : BPObject) : String :=
  String.intercalate "," (obj.attrs.map (fun p => p.1 ++ ":" ++ p.2))

/-- `_.uniq`: keep first occurrences in order (`seen` holds the values
already emitted). -/
def uniqAux (seen : List Nat) : List Nat → List Nat
  | [] => []
  | n :: rest =>
      if n ∈ seen then uniqAux seen rest else n :: uniqAux (n :: seen) rest

/-- Insertion step of `_.sortBy(…, _.identity)` over refIDs. -/
def insertSortedNat (n : Nat) : List Nat → List Nat
  | [] => [n]
  | m :: rest => if n ≤ m then n :: m :: rest else m :: insertSortedNat n rest

/-- `_.sortBy(…, _.identity)`: sort ascending. -/
def sortNats : List Nat → List Nat
  | [] => []
  | n :: rest => insertSortedNat n (sortNats rest)

/-- `Array.prototype.indexOf` over the refID list. -/
def idxOfNat (n : Nat) : List Nat → Nat
  | [] => 0
  | m :: rest => if m == n then 0 else idxOfNat n rest + 1

/-- `refIDs[k]` after the two preparation loops of `setQuiltIDs`: the
refIDs of all objects whose key is `k`, deduplicated and sorted. -/
def refIDsFor (objs : List BPObject) (k : String) : List Nat :=
  sortNats (uniqAux []
    ((objs.filter (fun o => key o == k)).map (fun o => o.refID)))

/-- `setQuiltIDs`: each object's id is `hash` of its key concatenated with
the index of its refID among the sorted distinct refIDs sharing that key.
Returns the ids in object order; `hash` abstracts the SHA-1 hex digest. -/
def setQuiltIDs (hash : String → String) (objs : List BPObject) :
    List String :=
  objs.map (fun o =>
    hash (key o ++ toString (idxOfNat o.refID (refIDsFor objs (key o)))))

theorem key_eq_of_attrs {o₁ o₂ : BPObject} (h : o₁.attrs = o₂.attrs) :
    key o₁ = key o₂ := by
  unfold key
  rw [h]

theorem filtered_refIDs_map (f : Nat → Nat) (k : String) :
    ∀ {objs₁ objs₂ : List BPObject},
      List.Forall₂ (fun o₁ o₂ => o₁.attrs = o₂.attrs ∧ o₂.refID = f o₁.refID)
        objs₁ objs₂ →
      (objs₂.filter (fun o => key o == k)).map (fun o => o.refID) =
        ((objs₁.filter (fun o => key o == k)).map (fun o => o.refID)).map f := by
  intro objs₁ objs₂ h
  induction h with
  | nil => rfl
  | @cons a b l₁ l₂ hab _ ih =>
      have hk : key b = key a := (key_eq_of_attrs hab.1).symm
      simp only [List.filter_cons, hk]
      by_cases hkey : (key a == k) = true
      · simp [hkey, List.map_cons, ih, hab.2]
      · simp [hkey, ih]

theorem uniqAux_map (f : Nat → Nat) (hf : Function.Injective f) :
    ∀ (l seen : List Nat),
      uniqAux (seen.map f) (l.map f) = (uniqAux seen l).map f := by
  intro l
  induction l with
  | nil => intro seen; rfl
  | cons n rest ih =>
      intro seen
      simp only [List.map_cons, uniqAux]
      by_cases hn : n ∈ seen
      · rw [if_pos (List.mem_map_of_mem f hn), if_pos hn]
        exact ih seen
      · have : f n ∉ seen.map f := by
          intro hmem
          rcases List.mem_map.mp hmem with ⟨m, hm, hfm⟩
          exact hn (hf hfm ▸ hm)
        rw [if_neg this, if_neg hn]
        have := ih (n :: seen)
        simp only [List.map_cons] at this
        rw [this]
        rfl

theorem insertSortedNat_map (f : Nat → Nat) (hf : StrictMono f) (n : Nat) :
    ∀ l : List Nat,
      insertSortedNat (f n) (l.map f) = (insertSortedNat n l).map f := by
  intro l
  induction l with
  | nil => rfl
  | cons m rest ih =>
      simp only [List.map_cons, insertSortedNat]
      by_cases h : n ≤ m
      · rw [if_pos (hf.le_iff_le.mpr h), if_pos h]
        rfl
      · rw [if_neg (fun hc => h (hf.le_iff_le.mp hc)), if_neg h]
        simp only [List.map_cons, ih]

theorem sortNats_map (f : Nat → Nat) (hf : StrictMono f) :
    ∀ l : List Nat, sortNats (l.map f) = (sortNats l).map f := by
  intro l
  induction l with
  | nil => rfl
  | cons n rest ih =>
      simp only [List.map_cons, sortNats, ih]
      exact insertSortedNat_map f hf n (sortNats rest)

theorem idxOfNat_map (f : Nat → Nat) (hf : Function.Injective f) (r : Nat) :
    ∀ l : List Nat, idxOfNat (f r) (l.map f) = idxOfNat r l := by
  intro l
  induction l with
  | nil => rfl
  | cons m rest ih =>
      simp only [List.map_cons, idxOfNat]
      by_cases h : m = r
      · rw [if_pos (by simpa using congrArg f h), if_pos (by simpa using h)]
      · have h1 : ¬((f m == f r) = true) := by
          simp only [beq_iff_eq]
          exact fun hc => h (hf hc)
        rw [if_neg h1, if_neg (by simpa using h), ih]

theorem refIDsFor_map (f : Nat → Nat) (hf : StrictMono f) (k : String)
    {objs₁ objs₂ : List BPObject}
    (h : List.Forall₂ (fun o₁ o₂ => o₁.attrs = o₂.attrs ∧ o₂.refID = f o₁.refID)
      objs₁ objs₂) :
    refIDsFor objs₂ k = (refIDsFor objs₁ k).map f := by
  unfold refIDsFor
  rw [filtered_refIDs_map f k h]
  have h0 : uniqAux ([] : List Nat)
      (((objs₁.filter (fun o => key o == k)).map (fun o => o.refID)).map f) =
      (uniqAux [] ((objs₁.filter (fun o => key o == k)).map
        (fun o => o.refID))).map f :=
    uniqAux_map f hf.injective _ []
  rw [h0, sortNats_map f hf]

theorem map_eq_of_forall₂ {α β γ : Type} (R : α → β → Prop) (g₁ : α → γ)
    (g₂ : β → γ) : ∀ {l₁ : List α} {l₂ : List β}, List.Forall₂ R l₁ l₂ →
      (∀ a b, R a b → g₁ a = g₂ b) → l₁.map g₁ = l₂.map g₂ := by
  intro l₁ l₂ h hg
  induction h with
  | nil => rfl
  | @cons a b t₁ t₂ hab _ ih =>
      simp only [List.map_cons, ih, hg a b hab]

/-- C9: the ids produced by `setQuiltIDs` are a pure function of the
objects' attribute content (SSH keys excluded — the relation below leaves
`sshKeys` unconstrained) together with the per-refID disambiguator index:
two runs whose object lists are attribute-equal and whose `_refID` counters
are related by any strictly monotone relabeling (as happens when the global
counter starts at a different offset) produce identical id strings. -/
theorem setQuiltIDs_deterministic :
    ∀ (hash : String → String) (f : Nat → Nat), StrictMono f →
      ∀ (objs₁ objs₂ : List BPObject),
        List.Forall₂
          (fun o₁ o₂ => o₁.attrs = o₂.attrs ∧ o₂.refID = f o₁.refID)
          objs₁ objs₂ →
        setQuiltIDs hash objs₁ = setQuiltIDs hash objs₂ := by
  intro hash f hf objs₁ objs₂ hrel
  unfold setQuiltIDs
  refine map_eq_of_forall₂ _ _ _ hrel ?_
  intro a b hab
  have hk : key b = key a := (key_eq_of_attrs hab.1).symm
  rw [hk]
  rw [refIDsFor_map f hf (key a) hrel, hab.2, idxOfNat_map f hf.injective]

/-- First object of the first C9 run. -/
def c9A1 : BPObject := { attrs := [("image", "alpine")], sshKeys := ["k1"], refID := 0 }

/-- Second object of the first C9 run (same attributes, next refID). -/
def c9A2 : BPObject := { attrs := [("image", "alpine")], refID := 1 }

/-- First object of the second C9 run: same attributes, different SSH keys,
refID counter offset by 5. -/
def c9B1 : BPObject := { attrs := [("image", "alpine")], sshKeys := ["other"], refID := 5 }

/-- Second object of the second C9 run. -/
def c9B2 : BPObject := { attrs := [("image", "alpine")], refID := 6 }

/-- C9 witness: two attribute-equal two-object runs — SSH keys differing
and refIDs shifted by 5 — produce identical id lists. -/
theorem setQuiltIDs_deterministic_witness :
    setQuiltIDs (fun s => s) [c9A1, c9A2] = setQuiltIDs (fun s => s) [c9B1, c9B2] :=
  setQuiltIDs_deterministic (fun s => s) (fun n => n + 5)
    (fun _ _ h => Nat.add_lt_add_right h 5) [c9A1, c9A2] [c9B1, c9B2]
    (List.Forall₂.cons ⟨rfl, rfl⟩
      (List.Forall₂.cons ⟨rfl, rfl⟩ List.Forall₂.nil))

end Quilt
